import Mathlib

/-! Verification of the `FractalMC` planning controller of
`src/fractalai/fractalmc.py`.  The base class `Swarm` and the tree class
`DynamicTree` are imported by the source from `fractalai/swarm.py`, which is
not among the sources; the pieces of their behaviour that the development
needs are modelled from the spec and marked as such in their doc comments.
Python machine floats are modelled as exact rationals. -/

/-- Greatest element of a list, `d` for the empty list.  This is the value
numpy reductions such as `arr.max()` produce on a nonempty array; the code
only ever applies them to nonempty arrays (`n_walkers >= 2`). -/
def maxD {α : Type} [LinearOrder α] (d : α) : List α → α
  | [] => d
  | x :: xs => xs.foldl max x

/-- First index attaining the maximum of the list, which is exactly what
`np.argmax` returns (ties broken towards the smallest index). -/
def argmaxFirst {α : Type} [LinearOrder α] [DecidableEq α] (d : α) (l : List α) : ℕ :=
  l.indexOf (maxD d l)

/-- Mean of a list of rationals (`np.mean`); the empty list yields `0`
(division by zero in `ℚ`), a case the code never hits (`n_walkers >= 2`). -/
def listMean (l : List ℚ) : ℚ := l.sum / (l.length : ℚ)

/-- `np.clip x lo hi`: the lower bound is applied first, then the upper
bound (so `hi` wins when `hi < lo`). -/
def npClip (x lo hi : ℤ) : ℤ := min (max x lo) hi

/-- State of a `FractalMC` controller.  The fields mirror the attributes set
in `FractalMC.__init__`.  The fields `n_samples_done`, `i_simulation`,
`rewards`, `times`, `end_cond` and `walkers_id` belong to the base class
`Swarm` (file `fractalai/swarm.py`, not among the sources) and are modelled
from the spec: the per-cycle consumed-sample counter, the loop iteration
counter, per-walker cumulative rewards, per-walker elapsed times, per-walker
terminal flags and per-walker current tree node ids.  `max_samples` is kept
as an integer, i.e. the `max_samples_step` constructor argument is assumed
given (not `None`), as the claims about the resource controller presuppose a
configured per-cycle maximum. -/
structure SwarmState where
  n_walkers : ℕ
  max_walkers : ℕ
  time_horizon : ℚ
  min_horizon : ℕ
  max_samples : ℤ
  max_samples_step : ℤ
  n_samples_done : ℕ
  i_simulation : ℕ
  balance : ℚ
  reward_limit : Option ℚ
  rewards : List ℚ
  times : List ℚ
  end_cond : List Bool
  init_ids : List ℕ
  walkers_id : List ℕ
deriving Repr, DecidableEq

/-- `stop_hard` of `FractalMC.stop_condition`:
`self._n_samples_done > self._max_samples_step`. -/
def stopHard (s : SwarmState) : Bool :=
  decide ((s.n_samples_done : ℤ) > s.max_samples_step)

/-- `stop_score` of `FractalMC.stop_condition`:
`False if self.reward_limit is None else self.rewards.max() >= self.reward_limit`. -/
def stopScore (s : SwarmState) : Bool :=
  match s.reward_limit with
  | none => false
  | some r => decide (maxD 0 s.rewards ≥ r)

/-- `stop_terminal` of `FractalMC.stop_condition`: `self._end_cond.all()`. -/
def stopTerminal (s : SwarmState) : Bool := s.end_cond.all (fun b => b)

/-- The `_game_status` string assigned by `FractalMC.stop_condition`. -/
def gameStatus (s : SwarmState) : String :=
  if stopHard s then "Sample limit reached."
  else if stopScore s then "Score limit reached."
  else if stopTerminal s then "All the walkers died."
  else "Playing..."

/-- Return value of `FractalMC.stop_condition`:
`stop_hard or stop_score or stop_terminal`. -/
def stop_condition (s : SwarmState) : Bool :=
  stopHard s || stopScore s || stopTerminal s

/-- Modelled from the spec: one pass of the `run_swarm` loop body for a
benign environment, i.e. one in which stepping changes no reward and marks
no walker terminal.  Per the spec, `step_walkers` (base class `Swarm`, not
among the sources) increments the cycle's consumed-sample counter by the
number of walkers advanced; at `_i_simulation == 0` the source fixes
`init_ids` to a copy of `walkers_id` (first-level node ids); cloning only
copies existing records between walkers, so under a benign environment it
cannot change `rewards.max()` being irrelevant (no score limit) nor turn the
all-`false` terminal flags `true`, and is omitted here. -/
def benignLoopBody (s : SwarmState) : SwarmState :=
  let s1 := { s with n_samples_done := s.n_samples_done + s.n_walkers }
  let s2 := if s1.i_simulation = 0 then { s1 with init_ids := s1.walkers_id } else s1
  { s2 with i_simulation := s2.i_simulation + 1 }

/-- The `while not self.stop_condition()` loop of `FractalMC.run_swarm`,
counting executed loop iterations; `fuel` only guards termination of the
recursion and is irrelevant once the stop condition fires within it. -/
def runSwarmCount (fuel : ℕ) (s : SwarmState) (iters : ℕ) : ℕ × SwarmState :=
  match fuel with
  | 0 => (iters, s)
  | f + 1 =>
    if stop_condition s then (iters, s)
    else runSwarmCount f (benignLoopBody s) (iters + 1)

/-- Controller state for a planning cycle with `max_samples_step = 10` and a
population of 2 walkers, as produced by `FractalMC.__init__` with
`n_walkers=2, max_samples_step=10, time_horizon=40` followed by the per-cycle
reset (`_n_samples_done = 0`, `_i_simulation = 0`), in a benign environment
where no walker is terminal and no reward limit is configured. -/
def c1State : SwarmState :=
  { n_walkers := 2, max_walkers := 2, time_horizon := 40, min_horizon := 1,
    max_samples := 10, max_samples_step := 10, n_samples_done := 0,
    i_simulation := 0, balance := 1, reward_limit := none, rewards := [0, 0],
    times := [0, 0], end_cond := [false, false], init_ids := [0, 0],
    walkers_id := [1, 2] }

/-- `FractalMC.clone`, restricted to the update it performs on `init_ids`
(line 92 of the source):
`np.where(self._will_clone, self.init_ids[self._clone_idx], self.init_ids)`.
The per-walker clone flags `will` and companion indices `idx` are produced
by `Swarm.clone_condition` (not among the sources) and are treated here as
arbitrary values; numpy fancy indexing is rendered with `List.getD`. -/
def cloneInitIds (will : List Bool) (idx : List ℕ) (ids : List ℕ) : List ℕ :=
  (List.range ids.length).map fun i =>
    if will.getD i false then ids.getD (idx.getD i i) 0 else ids.getD i 0

/-- The effect on `init_ids` of an arbitrary number of evolution iterations
after the first one: each later iteration applies `FractalMC.clone` with the
clone flags and companion indices of that iteration. -/
def evolveInitIds (steps : List (List Bool × List ℕ)) (ids0 : List ℕ) : List ℕ :=
  steps.foldl (fun ids st => cloneInitIds st.1 st.2 ids) ids0

/-- `FractalMC._update_balance`:
`self.balance = self.times.mean() / self.time_horizon`. -/
def update_balance (s : SwarmState) : SwarmState :=
  { s with balance := listMean s.times / s.time_horizon }

/-- `FractalMC._update_n_samples`: divide the current per-cycle budget by
`max(1e-7, balance)`, round up, clip to `[2, max_samples]`, and floor the
result at `n_walkers * min_horizon`. -/
def update_n_samples (s : SwarmState) : SwarmState :=
  let limit_samples : ℚ := (s.max_samples_step : ℚ) / max (1 / 10000000) s.balance
  let limit_clean : ℤ := npClip ⌈limit_samples⌉ 2 s.max_samples
  { s with max_samples_step := max limit_clean ((s.n_walkers : ℤ) * (s.min_horizon : ℤ)) }

/-- `FractalMC._update_n_walkers`: multiply the population size by
`balance`, round up and clip to `[2, max_walkers]`. -/
def update_n_walkers (s : SwarmState) : SwarmState :=
  let new_n : ℤ := npClip ⌈(s.n_walkers : ℚ) * s.balance⌉ 2 (s.max_walkers : ℤ)
  { s with n_walkers := new_n.toNat }

/-- `FractalMC.update_parameters`: recompute the balance, then adjust either
the sampling budget or the population size depending on which resource is at
its cap (the `_save_steps` bookkeeping is print-only and omitted). -/
def update_parameters (s : SwarmState) : SwarmState :=
  let s1 := update_balance s
  if s1.balance ≥ 1 then
    if s1.n_walkers = s1.max_walkers then update_n_samples s1 else update_n_walkers s1
  else
    if s1.max_samples_step = s1.max_samples then update_n_walkers s1 else update_n_samples s1

/-- Controller state whose recomputed balance is `21/20 > 1`, with the
population at its cap: mean elapsed time `21` against time horizon `20`. -/
def c3State : SwarmState :=
  { n_walkers := 2, max_walkers := 2, time_horizon := 20, min_horizon := 1,
    max_samples := 100, max_samples_step := 10, n_samples_done := 0,
    i_simulation := 0, balance := 1, reward_limit := none, rewards := [0, 0],
    times := [21, 21], end_cond := [false, false], init_ids := [], walkers_id := [] }

/-- Controller state whose recomputed balance is `99/100 < 1`, with the
sampling budget at its configured cap and 10 walkers. -/
def c4State : SwarmState :=
  { n_walkers := 10, max_walkers := 20, time_horizon := 100, min_horizon := 1,
    max_samples := 50, max_samples_step := 50, n_samples_done := 0,
    i_simulation := 0, balance := 1, reward_limit := none,
    rewards := [0, 0, 0, 0, 0, 0, 0, 0, 0, 0],
    times := [99, 99, 99, 99, 99, 99, 99, 99, 99, 99],
    end_cond := [false, false, false, false, false, false, false, false, false, false],
    init_ids := [], walkers_id := [] }

/-- Controller state whose recomputed balance is exactly `1`, with the
population at its cap and a sampling budget `5` below the floor
`n_walkers * min_horizon = 8`. -/
def c5State : SwarmState :=
  { n_walkers := 4, max_walkers := 4, time_horizon := 10, min_horizon := 2,
    max_samples := 5, max_samples_step := 5, n_samples_done := 0,
    i_simulation := 0, balance := 1, reward_limit := none,
    rewards := [0, 0, 0, 0], times := [10, 10, 10, 10],
    end_cond := [false, false, false, false], init_ids := [], walkers_id := [] }

/-- `np.bincount(l, minlength=m)`: occurrence counts of `0, ..., len-1`
where `len = max(m, max(l)+1)` for nonempty `l` and `m` for empty `l`. -/
def bincount (minlength : ℕ) (l : List ℕ) : List ℕ :=
  let len := match l with
    | [] => minlength
    | _ => max minlength (maxD 0 l + 1)
  (List.range len).map fun i => l.count i

/-- `FractalMC.weight_actions` on a discrete model: `np.argmax` of
`np.bincount(self.init_actions, minlength=self._env.n_actions)`.  The
walkers' origin actions `init_actions` are passed as a list. -/
def weight_actions (n_actions : ℕ) (init_actions : List ℕ) : ℕ :=
  argmaxFirst 0 (bincount n_actions init_actions)

/-- Probability vector returned by `FractalMC.estimate_distributions` on a
discrete model: `counts / counts.sum()`. -/
def estimate_probs (n_actions : ℕ) (init_actions : List ℕ) : List ℚ :=
  let counts := bincount n_actions init_actions
  counts.map fun c => (c : ℚ) / (counts.sum : ℚ)

/-- `FractalMC.get_expected_reward`: for each action id `i`, the maximum of
`self.rewards[init_act == i]` when the selection is nonempty, else `0`.
Walkers are rendered as the zip of origin actions with rewards. -/
def get_expected_reward (n_actions : ℕ) (init_act : List ℕ) (rewards : List ℚ) : List ℚ :=
  (List.range n_actions).map fun i =>
    let sel := ((init_act.zip rewards).filter fun p => p.1 == i).map fun p => p.2
    match sel with
    | [] => 0
    | x :: xs => xs.foldl max x

/-- Modelled from the spec: a node of `DynamicTree` (file
`fractalai/swarm.py`, not among the sources): parent id, plus the recorded
`(state, action, repeat_count)` payload; states and actions are opaque and
rendered as naturals. -/
structure TreeNode where
  parent : ℕ
  state : ℕ
  action : ℕ
  dt : ℕ
deriving Repr, DecidableEq

/-- Modelled from the spec: a `DynamicTree` as the association list of its
appended nodes; the root is the distinguished node `0`, which carries no
payload. -/
def DynTree : Type := List (ℕ × TreeNode)

/-- Node lookup by id in the association list of appended nodes. -/
def lookupNode (t : DynTree) (i : ℕ) : Option TreeNode :=
  ((List.find? (fun p => p.1 == i)) t).map fun p => p.2

/-- Modelled from the spec: the parent-link walk of `DynamicTree.get_branch`,
collecting `(state, action, repeat_count)` in root-to-leaf order and failing
on an unknown node id; the fuel bounds the walk by the size of the tree. -/
def getBranchAux (t : DynTree) : ℕ → ℕ → Option (List (ℕ × ℕ × ℕ))
  | 0, _ => none
  | fuel + 1, i =>
    if i = 0 then some []
    else
      match lookupNode t i with
      | none => none
      | some nd => (getBranchAux t fuel nd.parent).map fun br => br ++ [(nd.state, nd.action, nd.dt)]

/-- Modelled from the spec: `DynamicTree.get_branch`. -/
def get_branch (t : DynTree) (i : ℕ) : Option (List (ℕ × ℕ × ℕ)) :=
  getBranchAux t (t.length + 1) i

/-- `FractalMC.recover_game`: with no index, the branch ending at
`self.walkers_id[self.rewards.argmax()]`. -/
def recover_game (s : SwarmState) (t : DynTree) (index : Option ℕ) : Option (List (ℕ × ℕ × ℕ)) :=
  let idx := match index with
    | none => s.walkers_id.getD (argmaxFirst 0 s.rewards) 0
    | some i => i
  get_branch t idx

/-- The warm-up loop of `FractalMC._skip_initial_frames`, recording the
`(node_id, parent_id)` arguments of each `tree.append_leaf` call and the
final `i_step`; `endAt i` tells whether the environment reports a terminal
condition at warm-up step `i` (the `info.get("terminal", _end)` value),
which breaks the loop. -/
def skipFramesAux (endAt : ℕ → Bool) : ℕ → ℕ → List (ℕ × ℤ) → List (ℕ × ℤ) × ℕ
  | 0, istep, acc => (acc, istep)
  | r + 1, istep, acc =>
    let i := istep + 1
    let acc2 := acc ++ [(i, (i : ℤ) - 1)]
    if endAt i then (acc2, i) else skipFramesAux endAt r i acc2

/-- The `(node_id, parent_id)` arguments of every `tree.append_leaf` call
issued by `FractalMC.run_agent` up to and including its post-warm-up append:
`tree.reset()`, the `_skip_initial_frames` loop, then
`append_leaf(i_step, parent_id=i_step - 1, ...)`. -/
def run_agent_appends (endAt : ℕ → Bool) (skip : ℕ) : List (ℕ × ℤ) :=
  let r := skipFramesAux endAt skip 0 []
  r.1 ++ [(r.2, (r.2 : ℤ) - 1)]

/-- The guard of the episode loop of `FractalMC.run_agent`:
`self._agent_reward < self.reward_limit`.  Comparing a number against
`None` is a `TypeError` in Python 3, rendered as the error case. -/
def episode_guard (agent_reward : ℚ) : Option ℚ → Except String Bool
  | none => Except.error "TypeError: comparison of float and NoneType"
  | some r => Except.ok (decide (agent_reward < r))

/-- Whether `FractalMC.run_agent` reaches its first planning cycle
(`run_swarm` call): after the warm-up frames end with terminal flag `e`,
the loop guard `not end and self._agent_reward < self.reward_limit` is
evaluated before the loop body runs. -/
def run_agent_runs_first_cycle (reward_limit : Option ℚ) (agent_reward : ℚ)
    (e : Bool) : Except String Bool :=
  if e then Except.ok false
  else episode_guard agent_reward reward_limit

/-- A trajectory tree after one planning cycle: first-level nodes `1`, `2`
below the root, and current leaves `5` (below `1`) and `6` (below `2`). -/
def t8 : DynTree :=
  [(1, ⟨0, 10, 0, 1⟩), (2, ⟨0, 20, 1, 1⟩), (5, ⟨1, 50, 2, 1⟩), (6, ⟨2, 60, 3, 1⟩)]

/-- Swarm state matching `t8`: two walkers currently at nodes `5` and `6`
with origin ids `1` and `2`, the best cumulative reward `7` belonging to the
walker at node `6` (origin `2`). -/
def s8 : SwarmState :=
  { n_walkers := 2, max_walkers := 2, time_horizon := 40, min_horizon := 1,
    max_samples := 10, max_samples_step := 10, n_samples_done := 0,
    i_simulation := 3, balance := 1, reward_limit := none, rewards := [3, 7],
    times := [2, 2], end_cond := [false, false], init_ids := [1, 2],
    walkers_id := [5, 6] }

/-! Helper lemmas about lists. -/

theorem getD_mem {α : Type} {l : List α} {i : ℕ} (d : α) (h : i < l.length) :
    l.getD i d ∈ l := by
  induction l generalizing i with
  | nil => simp at h
  | cons x xs ih =>
    cases i with
    | zero => simp
    | succ n =>
      simp only [List.getD_cons_succ]
      exact List.mem_cons_of_mem _ (ih (by simpa using h))

theorem getD_eq_default_of_le {α : Type} {l : List α} {i : ℕ} (d : α)
    (h : l.length ≤ i) : l.getD i d = d := by
  induction l generalizing i with
  | nil => simp
  | cons x xs ih =>
    cases i with
    | zero => simp at h
    | succ n =>
      simp only [List.getD_cons_succ]
      exact ih (by simpa using h)

theorem le_foldl_max {α : Type} [LinearOrder α] (xs : List α) (x : α) :
    x ≤ xs.foldl max x ∧ ∀ q ∈ xs, q ≤ xs.foldl max x := by
  induction xs generalizing x with
  | nil => simp
  | cons y ys ih =>
    obtain ⟨h1, h2⟩ := ih (max x y)
    simp only [List.foldl_cons]
    refine ⟨le_trans (le_max_left x y) h1, ?_⟩
    intro q hq
    rcases List.mem_cons.mp hq with hq | hq
    · rw [hq]; exact le_trans (le_max_right x y) h1
    · exact h2 q hq

theorem foldl_max_mem {α : Type} [LinearOrder α] (xs : List α) (x : α) :
    xs.foldl max x = x ∨ xs.foldl max x ∈ xs := by
  induction xs generalizing x with
  | nil => left; rfl
  | cons y ys ih =>
    rcases ih (max x y) with h | h
    · rcases max_choice x y with hm | hm
      · left; simpa [hm] using h
      · right; simp only [List.foldl_cons]; rw [h, hm]; exact List.mem_cons_self _ _
    · right; exact List.mem_cons_of_mem _ h

theorem maxD_mem {α : Type} [LinearOrder α] (d : α) {l : List α} (h : l ≠ []) :
    maxD d l ∈ l := by
  cases l with
  | nil => exact absurd rfl h
  | cons x xs =>
    simp only [maxD]
    rcases foldl_max_mem xs x with h1 | h1
    · rw [h1]; exact List.mem_cons_self _ _
    · exact List.mem_cons_of_mem _ h1

theorem le_maxD {α : Type} [LinearOrder α] (d : α) {l : List α} {q : α}
    (h : q ∈ l) : q ≤ maxD d l := by
  cases l with
  | nil => simp at h
  | cons x xs =>
    simp only [maxD]
    rcases List.mem_cons.mp h with h1 | h1
    · exact h1 ▸ (le_foldl_max xs x).1
    · exact (le_foldl_max xs x).2 q h1

theorem getD_indexOf {α : Type} [DecidableEq α] {a : α} {l : List α} (d : α)
    (h : a ∈ l) : l.getD (l.indexOf a) d = a := by
  induction l with
  | nil => simp at h
  | cons x xs ih =>
    by_cases hx : x = a
    · rw [List.indexOf_cons_eq _ hx, List.getD_cons_zero, hx]
    · rw [List.indexOf_cons_ne _ hx, List.getD_cons_succ]
      exact ih (List.mem_of_ne_of_mem (fun he => hx he.symm) h)

theorem getD_ne_of_lt_indexOf {α : Type} [DecidableEq α] {a : α} {l : List α}
    {i : ℕ} (d : α) (h : i < l.indexOf a) : l.getD i d ≠ a := by
  induction l generalizing i with
  | nil => simp [List.indexOf] at h
  | cons x xs ih =>
    by_cases hx : x = a
    · rw [List.indexOf_cons_eq _ hx] at h; exact absurd h (Nat.not_lt_zero i)
    · rw [List.indexOf_cons_ne _ hx] at h
      cases i with
      | zero => simpa using hx
      | succ n =>
        simp only [List.getD_cons_succ]
        exact ih (Nat.lt_of_succ_lt_succ h)

theorem sum_map_add_nat (l : List ℕ) (f g : ℕ → ℕ) :
    (l.map fun i => f i + g i).sum = (l.map f).sum + (l.map g).sum := by
  induction l with
  | nil => simp
  | cons x xs ih => simp only [List.map_cons, List.sum_cons, ih]; omega

theorem sum_map_ite_zero (m a : ℕ) (h : m ≤ a) :
    ((List.range m).map fun i => if a = i then 1 else 0).sum = 0 := by
  induction m with
  | zero => simp
  | succ k ih =>
    rw [List.range_succ, List.map_append, List.sum_append]
    have hk : a ≠ k := by omega
    simp [ih (by omega), hk]

theorem sum_map_ite_range (L a : ℕ) (h : a < L) :
    ((List.range L).map fun i => if a = i then 1 else 0).sum = 1 := by
  induction L with
  | zero => omega
  | succ m ih =>
    rw [List.range_succ, List.map_append, List.sum_append]
    by_cases hm : a = m
    · rw [hm]
      simp [sum_map_ite_zero m m le_rfl]
    · have ham : a < m := by omega
      simp [ih ham, hm]

theorem count_range_sum (L : ℕ) (acts : List ℕ) (h : ∀ a ∈ acts, a < L) :
    ((List.range L).map fun i => acts.count i).sum = acts.length := by
  induction acts with
  | nil => simp
  | cons a rest ih =>
    have hr : ∀ x ∈ rest, x < L := fun x hx => h x (List.mem_cons_of_mem _ hx)
    have ha : a < L := h a (List.mem_cons_self _ _)
    have hcongr : ((List.range L).map fun i => (a :: rest).count i) =
        (List.range L).map fun i => rest.count i + if a = i then 1 else 0 := by
      apply List.map_congr_left
      intro i _
      rw [List.count_cons]
      by_cases hai : a = i
      · simp [hai]
      · simp [hai, Ne.symm]
    rw [hcongr, sum_map_add_nat, ih hr, sum_map_ite_range L a ha]
    simp

theorem cloneInitIds_length (will : List Bool) (idx : List ℕ) (ids : List ℕ) :
    (cloneInitIds will idx ids).length = ids.length := by
  simp [cloneInitIds]

theorem cloneInitIds_mem (will : List Bool) (idx : List ℕ) (ids : List ℕ)
    (hidx : ∀ j ∈ idx, j < ids.length) :
    ∀ x ∈ cloneInitIds will idx ids, x ∈ ids := by
  intro x hx
  simp only [cloneInitIds, List.mem_map, List.mem_range] at hx
  obtain ⟨i, hi, hfx⟩ := hx
  by_cases hw : will.getD i false
  · rw [if_pos hw] at hfx
    by_cases hii : i < idx.length
    · have hj : idx.getD i i ∈ idx := getD_mem i hii
      exact hfx ▸ getD_mem 0 (hidx _ hj)
    · have hd : idx.getD i i = i := getD_eq_default_of_le i (le_of_not_lt hii)
      rw [hd] at hfx
      exact hfx ▸ getD_mem 0 hi
  · rw [if_neg hw] at hfx
    exact hfx ▸ getD_mem 0 hi

theorem evolveInitIds_closed (steps : List (List Bool × List ℕ)) (ids0 : List ℕ)
    (h : ∀ st ∈ steps, ∀ j ∈ st.2, j < ids0.length) :
    (evolveInitIds steps ids0).length = ids0.length ∧
    ∀ x ∈ evolveInitIds steps ids0, x ∈ ids0 := by
  induction steps generalizing ids0 with
  | nil => simp [evolveInitIds]
  | cons st rest ih =>
    have hst : ∀ j ∈ st.2, j < ids0.length := h st (List.mem_cons_self _ _)
    have hlen := cloneInitIds_length st.1 st.2 ids0
    have hmem := cloneInitIds_mem st.1 st.2 ids0 hst
    have hrest : ∀ s2 ∈ rest, ∀ j ∈ s2.2, j < (cloneInitIds st.1 st.2 ids0).length := by
      rw [hlen]
      exact fun s2 hs2 => h s2 (List.mem_cons_of_mem _ hs2)
    obtain ⟨l1, m1⟩ := ih _ hrest
    constructor
    · simpa [evolveInitIds, List.foldl_cons] using l1.trans hlen
    · intro x hx
      simp only [evolveInitIds, List.foldl_cons] at hx
      exact hmem x (m1 x hx)

theorem getD_map_range {α : Type} (f : ℕ → α) (n i : ℕ) (d : α) (h : i < n) :
    ((List.range n).map f).getD i d = f i := by
  rw [List.getD_eq_getElem?_getD]
  simp [List.getElem?_range, h]

theorem cloneInitIds_getD (will : List Bool) (idx : List ℕ) (ids : List ℕ)
    (i : ℕ) (h : i < ids.length) :
    (cloneInitIds will idx ids).getD i 0 =
      if will.getD i false then ids.getD (idx.getD i i) 0 else ids.getD i 0 := by
  simp only [cloneInitIds]
  exact getD_map_range _ _ i 0 h

/-- C1 (counterexample): with a per-cycle sampling budget of `10` and a
population that consumes `2` samples per evolution iteration, `run_swarm`
does not stop at or before `5` iterations: the stop condition compares with
a strict `>` (`self._n_samples_done > self._max_samples_step`), so after 5
iterations exactly `10` samples are consumed, the budget is not exceeded,
and the loop runs a sixth iteration before stopping. -/
theorem run_swarm_exceeds_five_iterations :
    (runSwarmCount 100 c1State 0).1 = 6 ∧
    ¬ (runSwarmCount 100 c1State 0).1 ≤ 5 ∧
    stop_condition (runSwarmCount 100 c1State 0).2 = true ∧
    gameStatus (runSwarmCount 100 c1State 0).2 = "Sample limit reached." := by
  decide

/-- C1 (amended): with `max_samples_step = 10` and a population consuming
`2` samples per evolution iteration, `run_swarm` stops at or before `6`
iterations (in fact exactly at the sixth, the first at which the samples
consumed strictly exceed the budget), and the status is
`"Sample limit reached."`. -/
theorem run_swarm_sample_limit_within_six_iterations :
    (runSwarmCount 100 c1State 0).1 ≤ 6 ∧
    stop_condition (runSwarmCount 100 c1State 0).2 = true ∧
    gameStatus (runSwarmCount 100 c1State 0).2 = "Sample limit reached." := by
  decide

/-- C2: for every population size `n ≥ 2` and any number of evolution
iterations inside one `run_swarm` cycle, the population keeps exactly `n`
origin ids, every origin id belongs to the set of first-level node ids fixed
after the first evolution iteration (`ids0`), and a walker's origin id
changes only under its will-clone flag, in which case it is overwritten by
its companion's origin id. -/
theorem init_ids_membership_invariant
    (ids0 : List ℕ) (steps : List (List Bool × List ℕ))
    (hn : 2 ≤ ids0.length)
    (hidx : ∀ st ∈ steps, ∀ j ∈ st.2, j < ids0.length) :
    (evolveInitIds steps ids0).length = ids0.length ∧
    (∀ x ∈ evolveInitIds steps ids0, x ∈ ids0) ∧
    (∀ (will : List Bool) (idx : List ℕ) (ids : List ℕ) (i : ℕ),
      i < ids.length → will.getD i false = false →
      (cloneInitIds will idx ids).getD i 0 = ids.getD i 0) ∧
    (∀ (will : List Bool) (idx : List ℕ) (ids : List ℕ) (i : ℕ),
      i < ids.length → will.getD i false = true →
      (cloneInitIds will idx ids).getD i 0 = ids.getD (idx.getD i i) 0) := by
  obtain ⟨hlen, hmem⟩ := evolveInitIds_closed steps ids0 hidx
  refine ⟨hlen, hmem, ?_, ?_⟩
  · intro will idx ids i hi hw
    rw [cloneInitIds_getD will idx ids i hi, hw]
    simp
  · intro will idx ids i hi hw
    rw [cloneInitIds_getD will idx ids i hi, hw]
    simp

/-- Witness for C2 at a concrete input: two walkers with first-level ids
`[1, 2]` and one later clone step. -/
theorem init_ids_membership_invariant_witness :
    (evolveInitIds [([true, false], [1, 0])] [1, 2]).length = ([1, 2] : List ℕ).length :=
  (init_ids_membership_invariant [1, 2] [([true, false], [1, 0])]
    (by decide) (by decide)).1

/-! Field-level unfolding lemmas for the parameter-update functions. -/

theorem msp_update_n_samples (s : SwarmState) :
    (update_n_samples s).max_samples_step =
      max (min (max ⌈(s.max_samples_step : ℚ) / max ((1 : ℚ) / 10000000) s.balance⌉ 2)
          s.max_samples)
        ((s.n_walkers : ℤ) * (s.min_horizon : ℤ)) := rfl

theorem nw_update_n_samples (s : SwarmState) :
    (update_n_samples s).n_walkers = s.n_walkers := rfl

theorem nw_update_n_walkers (s : SwarmState) :
    (update_n_walkers s).n_walkers =
      (min (max ⌈(s.n_walkers : ℚ) * s.balance⌉ 2) (s.max_walkers : ℤ)).toNat := rfl

theorem msp_update_n_walkers (s : SwarmState) :
    (update_n_walkers s).max_samples_step = s.max_samples_step := rfl

theorem bal_update_balance (s : SwarmState) :
    (update_balance s).balance = listMean s.times / s.time_horizon := rfl

theorem msp_update_balance (s : SwarmState) :
    (update_balance s).max_samples_step = s.max_samples_step := rfl

theorem nw_update_balance (s : SwarmState) :
    (update_balance s).n_walkers = s.n_walkers := rfl

theorem maxw_update_balance (s : SwarmState) :
    (update_balance s).max_walkers = s.max_walkers := rfl

theorem maxs_update_balance (s : SwarmState) :
    (update_balance s).max_samples = s.max_samples := rfl

theorem minh_update_balance (s : SwarmState) :
    (update_balance s).min_horizon = s.min_horizon := rfl

/-- C3 (counterexample): `update_parameters` with a recomputed balance of
`21/20 > 1` and the population at its cap leaves the sampling budget of `10`
unchanged: `ceil(10 / (21/20)) = ceil(200/21) = 10`, so the decrease is not
strict. -/
theorem update_parameters_high_balance_not_strict :
    1 < (update_balance c3State).balance ∧
    c3State.n_walkers = c3State.max_walkers ∧
    (update_parameters c3State).max_samples_step = c3State.max_samples_step := by
  have hb : (update_balance c3State).balance = 21 / 20 := by
    rw [bal_update_balance]
    norm_num [listMean, c3State]
  have hup : update_parameters c3State = update_n_samples (update_balance c3State) := by
    simp only [update_parameters]
    rw [if_pos (by rw [hb]; norm_num),
      if_pos (show (update_balance c3State).n_walkers = (update_balance c3State).max_walkers
        by rfl)]
  have hceil : ⌈(c3State.max_samples_step : ℚ) /
      max ((1 : ℚ) / 10000000) ((update_balance c3State).balance)⌉ = 10 := by
    rw [hb, max_eq_right (by norm_num),
      show (c3State.max_samples_step : ℚ) / (21 / 20) = 200 / 21 by norm_num [c3State]]
    rw [Int.ceil_eq_iff] <;> norm_num
  refine ⟨by rw [hb]; norm_num, rfl, ?_⟩
  rw [hup, msp_update_n_samples, msp_update_balance, maxs_update_balance,
    nw_update_balance, minh_update_balance, hceil]
  simp only [c3State]
  decide

/-- C3 (amended): whenever `update_parameters` runs with recomputed
`balance > 1` and the population at its configured maximum, the per-cycle
sampling budget never increases (the decrease need not be strict), provided
the old budget already respects its bounds (`2 ≤ budget` and
`n_walkers * min_horizon ≤ budget`) and the configured cap is at least `2`;
moreover the new budget is at least `2` and never below
`n_walkers * min_horizon`. -/
theorem update_parameters_high_balance_budget (s : SwarmState)
    (hb : 1 < (update_balance s).balance)
    (hn : s.n_walkers = s.max_walkers)
    (h2 : 2 ≤ s.max_samples_step)
    (hm : (s.n_walkers : ℤ) * (s.min_horizon : ℤ) ≤ s.max_samples_step)
    (hM : 2 ≤ s.max_samples) :
    (update_parameters s).max_samples_step ≤ s.max_samples_step ∧
    2 ≤ (update_parameters s).max_samples_step ∧
    (s.n_walkers : ℤ) * (s.min_horizon : ℤ) ≤ (update_parameters s).max_samples_step := by
  have hup : update_parameters s = update_n_samples (update_balance s) := by
    simp only [update_parameters]
    rw [if_pos (le_of_lt hb),
      if_pos (show (update_balance s).n_walkers = (update_balance s).max_walkers from hn)]
  rw [hup, msp_update_n_samples, msp_update_balance, maxs_update_balance,
    nw_update_balance, minh_update_balance]
  generalize hbal : (update_balance s).balance = b at hb ⊢
  rw [max_eq_right (le_of_lt (lt_trans (by norm_num) hb))]
  have hBnn : (0 : ℚ) ≤ ((s.max_samples_step : ℚ)) := by
    have h0 : (0 : ℤ) ≤ s.max_samples_step := by omega
    exact_mod_cast h0
  have hceil : ⌈(s.max_samples_step : ℚ) / b⌉ ≤ s.max_samples_step :=
    Int.ceil_le.mpr (div_le_self hBnn (le_of_lt hb))
  omega

/-- Controller state with recomputed balance `2` (mean time `40` against
horizon `20`), population at its cap, budget `10`, configured cap `100`. -/
def w3State : SwarmState :=
  { n_walkers := 2, max_walkers := 2, time_horizon := 20, min_horizon := 1,
    max_samples := 100, max_samples_step := 10, n_samples_done := 0,
    i_simulation := 0, balance := 1, reward_limit := none, rewards := [0, 0],
    times := [40, 40], end_cond := [false, false], init_ids := [], walkers_id := [] }

/-- Witness for C3 at a concrete input: recomputed balance `2`, population
at its cap, budget `10`, cap `100`. -/
theorem update_parameters_high_balance_budget_witness :
    (update_parameters w3State).max_samples_step ≤ w3State.max_samples_step ∧
    2 ≤ (update_parameters w3State).max_samples_step ∧
    (w3State.n_walkers : ℤ) * (w3State.min_horizon : ℤ) ≤
      (update_parameters w3State).max_samples_step :=
  update_parameters_high_balance_budget w3State
    (by rw [bal_update_balance]; norm_num [listMean, w3State])
    rfl (by decide) (by decide) (by decide)

/-- C4 (counterexample): `update_parameters` with a recomputed balance of
`99/100 < 1` and the sampling budget at its configured cap leaves the
population of `10` walkers unchanged: `ceil(10 * 99/100) = ceil(99/10) = 10`,
so the decrease is not strict. -/
theorem update_parameters_low_balance_not_strict :
    (update_balance c4State).balance < 1 ∧
    c4State.max_samples_step = c4State.max_samples ∧
    (update_parameters c4State).n_walkers = c4State.n_walkers := by
  have hb : (update_balance c4State).balance = 99 / 100 := by
    rw [bal_update_balance]
    norm_num [listMean, c4State]
  have hup : update_parameters c4State = update_n_walkers (update_balance c4State) := by
    simp only [update_parameters]
    rw [if_neg (by rw [hb]; norm_num),
      if_pos (show (update_balance c4State).max_samples_step =
        (update_balance c4State).max_samples by rfl)]
  have hceil : ⌈(c4State.n_walkers : ℚ) * (update_balance c4State).balance⌉ = 10 := by
    rw [hb, show (c4State.n_walkers : ℚ) * (99 / 100) = 99 / 10 by norm_num [c4State]]
    rw [Int.ceil_eq_iff]
    norm_num
  refine ⟨by rw [hb]; norm_num, rfl, ?_⟩
  rw [hup, nw_update_n_walkers, nw_update_balance, maxw_update_balance, hceil]
  simp only [c4State]
  decide

/-- C4 (amended): whenever `update_parameters` runs with recomputed
`balance < 1` and the sampling budget at its configured per-cycle maximum,
the population size never increases (the decrease need not be strict),
provided it already respects its bounds (`2 ≤ n_walkers ≤ max_walkers` and
`2 ≤ max_walkers`); moreover the result stays within `[2, max_walkers]`. -/
theorem update_parameters_low_balance_walkers (s : SwarmState)
    (hb : (update_balance s).balance < 1)
    (hs : s.max_samples_step = s.max_samples)
    (h2 : 2 ≤ s.n_walkers)
    (hw : s.n_walkers ≤ s.max_walkers)
    (hW : 2 ≤ s.max_walkers) :
    (update_parameters s).n_walkers ≤ s.n_walkers ∧
    2 ≤ (update_parameters s).n_walkers ∧
    (update_parameters s).n_walkers ≤ s.max_walkers := by
  have hup : update_parameters s = update_n_walkers (update_balance s) := by
    simp only [update_parameters]
    rw [if_neg (not_le.mpr hb),
      if_pos (show (update_balance s).max_samples_step = (update_balance s).max_samples
        from hs)]
  rw [hup, nw_update_n_walkers, nw_update_balance, maxw_update_balance]
  generalize hbal : (update_balance s).balance = b at hb
  have hceil : ⌈(s.n_walkers : ℚ) * b⌉ ≤ (s.n_walkers : ℤ) := by
    refine Int.ceil_le.mpr ?_
    push_cast
    exact mul_le_of_le_one_right (by positivity) (le_of_lt hb)
  omega

/-- Controller state with recomputed balance `1/2`, sampling budget at its
configured cap `50`, and `10` of at most `20` walkers. -/
def w4State : SwarmState :=
  { n_walkers := 10, max_walkers := 20, time_horizon := 100, min_horizon := 1,
    max_samples := 50, max_samples_step := 50, n_samples_done := 0,
    i_simulation := 0, balance := 1, reward_limit := none, rewards := [0, 0],
    times := [50, 50], end_cond := [false, false], init_ids := [], walkers_id := [] }

/-- Witness for C4 at a concrete input: recomputed balance `1/2` with the
budget at its cap shrinks the population from `10` to `5`. -/
theorem update_parameters_low_balance_walkers_witness :
    (update_parameters w4State).n_walkers ≤ w4State.n_walkers ∧
    2 ≤ (update_parameters w4State).n_walkers ∧
    (update_parameters w4State).n_walkers ≤ w4State.max_walkers :=
  update_parameters_low_balance_walkers w4State
    (by rw [bal_update_balance]; norm_num [listMean, w4State])
    rfl (by decide) (by decide) (by decide)

/-- C5 (counterexample): invoking `update_parameters` in a state whose
recomputed balance is exactly `1` can still change the sampling budget: with
the population at its cap, a budget of `5` and
`n_walkers * min_horizon = 8`, the final floor
`max(..., n_walkers * min_horizon)` raises the budget from `5` to `8`. -/
theorem update_parameters_unit_balance_changes_budget :
    (update_balance c5State).balance = 1 ∧
    (update_parameters c5State).max_samples_step ≠ c5State.max_samples_step := by
  have hb : (update_balance c5State).balance = 1 := by
    rw [bal_update_balance]
    norm_num [listMean, c5State]
  have hup : update_parameters c5State = update_n_samples (update_balance c5State) := by
    simp only [update_parameters]
    rw [if_pos (le_of_eq hb.symm),
      if_pos (show (update_balance c5State).n_walkers = (update_balance c5State).max_walkers
        by rfl)]
  have hceil : ⌈(c5State.max_samples_step : ℚ) /
      max ((1 : ℚ) / 10000000) ((update_balance c5State).balance)⌉ = 5 := by
    rw [hb, max_eq_right (by norm_num),
      show (c5State.max_samples_step : ℚ) / 1 = 5 by norm_num [c5State]]
    rw [Int.ceil_eq_iff]
    norm_num
  refine ⟨hb, ?_⟩
  rw [hup, msp_update_n_samples, msp_update_balance, maxs_update_balance,
    nw_update_balance, minh_update_balance, hceil]
  simp only [c5State]
  decide

/-- C5 (amended): if `update_parameters` is invoked in a state whose
recomputed balance is exactly `1`, and the current parameters already
respect their configured bounds (`2 ≤ n_walkers ≤ max_walkers`; and when the
population is at its cap, `2 ≤ budget ≤ max_samples` and
`n_walkers * min_horizon ≤ budget`), then both the population size and the
per-cycle sampling budget are unchanged. -/
theorem update_parameters_unit_balance_fixed (s : SwarmState)
    (hb : (update_balance s).balance = 1)
    (h2 : 2 ≤ s.n_walkers)
    (hw : s.n_walkers ≤ s.max_walkers)
    (hbud : s.n_walkers = s.max_walkers →
      2 ≤ s.max_samples_step ∧ s.max_samples_step ≤ s.max_samples ∧
      (s.n_walkers : ℤ) * (s.min_horizon : ℤ) ≤ s.max_samples_step) :
    (update_parameters s).n_walkers = s.n_walkers ∧
    (update_parameters s).max_samples_step = s.max_samples_step := by
  by_cases hn : s.n_walkers = s.max_walkers
  · have hup : update_parameters s = update_n_samples (update_balance s) := by
      simp only [update_parameters]
      rw [if_pos (le_of_eq hb.symm),
        if_pos (show (update_balance s).n_walkers = (update_balance s).max_walkers from hn)]
    obtain ⟨hb2, hbM, hbf⟩ := hbud hn
    refine ⟨?_, ?_⟩
    · rw [hup, nw_update_n_samples, nw_update_balance]
    · have hmax : max ((1 : ℚ) / 10000000) ((update_balance s).balance) = 1 := by
        rw [hb]
        norm_num
      rw [hup, msp_update_n_samples, msp_update_balance, maxs_update_balance,
        nw_update_balance, minh_update_balance, hmax, div_one, Int.ceil_intCast]
      omega
  · have hup : update_parameters s = update_n_walkers (update_balance s) := by
      simp only [update_parameters]
      rw [if_pos (le_of_eq hb.symm),
        if_neg (show ¬ (update_balance s).n_walkers = (update_balance s).max_walkers from hn)]
    refine ⟨?_, ?_⟩
    · rw [hup, nw_update_n_walkers, nw_update_balance, maxw_update_balance, hb, mul_one,
        Int.ceil_natCast]
      omega
    · rw [hup, msp_update_n_walkers, msp_update_balance]

/-- Controller state with recomputed balance exactly `1` and the population
strictly below its cap, all parameters within their configured bounds. -/
def w5State : SwarmState :=
  { n_walkers := 2, max_walkers := 4, time_horizon := 10, min_horizon := 1,
    max_samples := 9, max_samples_step := 7, n_samples_done := 0,
    i_simulation := 0, balance := 1, reward_limit := none, rewards := [0, 0],
    times := [10, 10], end_cond := [false, false], init_ids := [], walkers_id := [] }

/-- Witness for C5 at a concrete input: balance exactly `1` leaves the
parameters of `w5State` unchanged. -/
theorem update_parameters_unit_balance_fixed_witness :
    (update_parameters w5State).n_walkers = w5State.n_walkers ∧
    (update_parameters w5State).max_samples_step = w5State.max_samples_step :=
  update_parameters_unit_balance_fixed w5State
    (by rw [bal_update_balance]; norm_num [listMean, w5State])
    (by decide) (by decide) (fun h => absurd h (by decide))

/-- C6: on a discrete action space `weight_actions` returns a valid action
id whose count is maximal among the walkers' origin actions, with ties
broken towards the lowest id (every earlier id has a strictly smaller
count); the bincount totals the population size; and on the concrete input
of 4 walkers with origin actions `[0, 0, 1, 1]` in a 2-action space it
returns action `0`, while `estimate_distributions` returns the probability
vector `[1/2, 1/2]`. -/
theorem weight_actions_plurality (n_actions : ℕ) (acts : List ℕ)
    (hA : 0 < n_actions) :
    weight_actions n_actions acts < (bincount n_actions acts).length ∧
    (∀ i < (bincount n_actions acts).length,
      (bincount n_actions acts).getD i 0 ≤
        (bincount n_actions acts).getD (weight_actions n_actions acts) 0) ∧
    (∀ i < weight_actions n_actions acts,
      (bincount n_actions acts).getD i 0 <
        (bincount n_actions acts).getD (weight_actions n_actions acts) 0) ∧
    (bincount n_actions acts).sum = acts.length ∧
    weight_actions 2 [0, 0, 1, 1] = 0 ∧
    estimate_probs 2 [0, 0, 1, 1] = [1 / 2, 1 / 2] := by
  have hlen : 0 < (bincount n_actions acts).length := by
    cases acts with
    | nil => simpa [bincount] using hA
    | cons x rest =>
      simp only [bincount, List.length_map, List.length_range]
      omega
  have hbound : ∀ a ∈ acts, a < (bincount n_actions acts).length := by
    intro a ha
    cases acts with
    | nil => simp at ha
    | cons x rest =>
      simp only [bincount, List.length_map, List.length_range]
      have hle : a ≤ maxD 0 (x :: rest) := le_maxD 0 ha
      omega
  have hrepr : bincount n_actions acts =
      (List.range (bincount n_actions acts).length).map fun i => acts.count i := by
    cases acts <;> simp [bincount]
  have hsum : (bincount n_actions acts).sum = acts.length := by
    conv_lhs => rw [hrepr]
    exact count_range_sum _ acts hbound
  have hne : bincount n_actions acts ≠ [] := List.length_pos.mp hlen
  have hmem : maxD 0 (bincount n_actions acts) ∈ bincount n_actions acts :=
    maxD_mem 0 hne
  have hw : weight_actions n_actions acts =
      (bincount n_actions acts).indexOf (maxD 0 (bincount n_actions acts)) := rfl
  have hwlt : (bincount n_actions acts).indexOf (maxD 0 (bincount n_actions acts)) <
      (bincount n_actions acts).length := List.indexOf_lt_length.mpr hmem
  have hgetw : (bincount n_actions acts).getD
      ((bincount n_actions acts).indexOf (maxD 0 (bincount n_actions acts))) 0 =
      maxD 0 (bincount n_actions acts) := getD_indexOf 0 hmem
  refine ⟨hw ▸ hwlt, ?_, ?_, hsum, by decide, ?_⟩
  · intro i hi
    rw [hw, hgetw]
    exact le_maxD 0 (getD_mem 0 hi)
  · intro i hi
    rw [hw] at hi
    rw [hw, hgetw]
    have hilt : i < (bincount n_actions acts).length := lt_trans hi hwlt
    have hneq : (bincount n_actions acts).getD i 0 ≠ maxD 0 (bincount n_actions acts) :=
      getD_ne_of_lt_indexOf 0 hi
    exact lt_of_le_of_ne (le_maxD 0 (getD_mem 0 hilt)) hneq
  · have hcounts : bincount 2 [0, 0, 1, 1] = [2, 2] := by decide
    have hep : estimate_probs 2 [0, 0, 1, 1] =
        (bincount 2 [0, 0, 1, 1]).map fun c =>
          (c : ℚ) / ((bincount 2 [0, 0, 1, 1]).sum : ℚ) := rfl
    rw [hep, hcounts]
    norm_num

/-- Witness for C6 on the concrete 2-action population `[0, 0, 1, 1]`. -/
theorem weight_actions_plurality_witness :
    weight_actions 2 [0, 0, 1, 1] < (bincount 2 [0, 0, 1, 1]).length :=
  (weight_actions_plurality 2 [0, 0, 1, 1] (by decide)).1

theorem ger_getD (n_actions : ℕ) (init_act : List ℕ) (rewards : List ℚ)
    (i : ℕ) (hi : i < n_actions) :
    (get_expected_reward n_actions init_act rewards).getD i 0 =
      maxD 0 (((init_act.zip rewards).filter fun p => p.1 == i).map fun p => p.2) := by
  simp only [get_expected_reward]
  rw [getD_map_range _ _ i 0 hi]
  generalize (((init_act.zip rewards).filter fun p => p.1 == i).map fun p => p.2) = sel
  cases sel <;> rfl

/-- C7: for a discrete action space, the per-action expected-reward vector
of `estimate_distributions` (via `get_expected_reward`) assigns to each
action id `i` an upper bound of the rewards of the walkers whose origin
action is `i` that is attained by one of them, and assigns `0` to every
action id no walker took.  Walkers are the entries of the zip of origin
actions with cumulative rewards. -/
theorem get_expected_reward_spec (n_actions : ℕ) (init_act : List ℕ)
    (rewards : List ℚ) (i : ℕ) (hi : i < n_actions) :
    (∀ p ∈ init_act.zip rewards, p.1 = i →
      p.2 ≤ (get_expected_reward n_actions init_act rewards).getD i 0) ∧
    ((∃ p ∈ init_act.zip rewards, p.1 = i) →
      ∃ p ∈ init_act.zip rewards, p.1 = i ∧
        (get_expected_reward n_actions init_act rewards).getD i 0 = p.2) ∧
    ((∀ p ∈ init_act.zip rewards, p.1 ≠ i) →
      (get_expected_reward n_actions init_act rewards).getD i 0 = 0) := by
  have hmem : ∀ q : ℚ,
      q ∈ ((init_act.zip rewards).filter fun p => p.1 == i).map (fun p => p.2) ↔
      ∃ p, p ∈ init_act.zip rewards ∧ p.1 = i ∧ p.2 = q := by
    intro q
    simp only [List.mem_map, List.mem_filter, beq_iff_eq]
    constructor
    · rintro ⟨p, ⟨hp, hpi⟩, hq⟩
      exact ⟨p, hp, hpi, hq⟩
    · rintro ⟨p, hp, hpi, hq⟩
      exact ⟨p, ⟨hp, hpi⟩, hq⟩
  refine ⟨?_, ?_, ?_⟩
  · intro p hp hpi
    rw [ger_getD n_actions init_act rewards i hi]
    exact le_maxD 0 ((hmem p.2).mpr ⟨p, hp, hpi, rfl⟩)
  · rintro ⟨p, hp, hpi⟩
    have hne : ((init_act.zip rewards).filter fun p => p.1 == i).map (fun p => p.2) ≠ [] :=
      List.ne_nil_of_mem ((hmem p.2).mpr ⟨p, hp, hpi, rfl⟩)
    obtain ⟨p2, hp2, hpi2, hq2⟩ := (hmem _).mp (maxD_mem 0 hne)
    exact ⟨p2, hp2, hpi2, by rw [ger_getD n_actions init_act rewards i hi, hq2]⟩
  · intro hno
    rw [ger_getD n_actions init_act rewards i hi]
    have hfil : (init_act.zip rewards).filter (fun p => p.1 == i) = [] := by
      rw [List.filter_eq_nil_iff]
      intro p hp
      simpa using hno p hp
    rw [hfil]
    rfl

/-- Witness for C7 at a concrete input: two walkers `[(0, 3), (1, 4)]`, the
reward `4` of the walker with origin action `1` bounds the exported
action-value entry for action `1`. -/
theorem get_expected_reward_spec_witness :
    (4 : ℚ) ≤ (get_expected_reward 2 [0, 1] [3, 4]).getD 1 0 :=
  (get_expected_reward_spec 2 [0, 1] [3, 4] 1 (by decide)).1 (1, 4) (by decide) rfl

/-- C8 (counterexample): `recover_game` with no index argument returns the
branch ending at the best-reward walker's current node id
(`walkers_id[rewards.argmax()]`, here node `6`), not the branch ending at
that walker's origin id (`init_ids[rewards.argmax()]`, here first-level node
`2`): on the concrete tree `t8` the two branches differ. -/
theorem recover_game_not_origin_branch :
    recover_game s8 t8 none ≠
      get_branch t8 (s8.init_ids.getD (argmaxFirst 0 s8.rewards) 0) ∧
    recover_game s8 t8 none = some [(20, 1, 1), (60, 3, 1)] ∧
    get_branch t8 (s8.init_ids.getD (argmaxFirst 0 s8.rewards) 0) = some [(20, 1, 1)] := by
  refine ⟨?_, ?_, ?_⟩ <;> decide

/-- C8 (amended): when `recover_game` is called with no index argument, it
returns the tree branch (root-to-leaf sequence of
`(state, action, repeat_count)`) ending at the current node id of the
best-reward walker, i.e. `walkers_id[rewards.argmax()]`; the branch indeed
ends with that node's recorded data. -/
theorem recover_game_default_best_walker (s : SwarmState) (t : DynTree)
    (w : ℕ) (nd : TreeNode) (br : List (ℕ × ℕ × ℕ))
    (hw : s.walkers_id.getD (argmaxFirst 0 s.rewards) 0 = w)
    (hw0 : w ≠ 0)
    (hnd : lookupNode t w = some nd)
    (hbr : get_branch t w = some br) :
    recover_game s t none = some br ∧
    br.getLast? = some (nd.state, nd.action, nd.dt) := by
  constructor
  · show get_branch t (s.walkers_id.getD (argmaxFirst 0 s.rewards) 0) = some br
    rw [hw]
    exact hbr
  · unfold get_branch getBranchAux at hbr
    rw [if_neg hw0, hnd] at hbr
    obtain ⟨pre, hpre, hcat⟩ := Option.map_eq_some'.mp hbr
    rw [← hcat, List.getLast?_concat]

/-- Witness for C8 at the concrete swarm state `s8` and tree `t8`: the
default branch ends at node `6`, the current node of the best-reward
walker. -/
theorem recover_game_default_best_walker_witness :
    recover_game s8 t8 none = some [(20, 1, 1), (60, 3, 1)] ∧
    ([(20, 1, 1), (60, 3, 1)] : List (ℕ × ℕ × ℕ)).getLast? = some (60, 3, 1) :=
  recover_game_default_best_walker s8 t8 6 ⟨2, 60, 3, 1⟩ [(20, 1, 1), (60, 3, 1)]
    (by decide) (by decide) (by decide) (by decide)

theorem skipFramesAux_all_false (endAt : ℕ → Bool) (h : ∀ i, endAt i = false) :
    ∀ (r s : ℕ) (acc : List (ℕ × ℤ)),
      skipFramesAux endAt r s acc =
        (acc ++ (List.range r).map fun j => (s + j + 1, (s : ℤ) + j), s + r) := by
  intro r
  induction r with
  | zero => intro s acc; simp [skipFramesAux]
  | succ k ih =>
    intro s acc
    simp only [skipFramesAux, h, Bool.false_eq_true, if_false]
    rw [ih]
    have hmap : ((List.range (k + 1)).map fun j => ((s + j + 1 : ℕ), (s : ℤ) + j)) =
        (s + 1, ((s + 1 : ℕ) : ℤ) - 1) ::
          (List.range k).map fun j => ((s + 1 + j + 1 : ℕ), ((s + 1 : ℕ) : ℤ) + j) := by
      rw [List.range_succ_eq_map, List.map_cons, List.map_map]
      congr 1
      · simp only [Prod.mk.injEq]
        refine ⟨by first | trivial | omega, by push_cast; ring⟩
      · apply List.map_congr_left
        intro j _
        simp only [Function.comp_apply, Prod.mk.injEq]
        refine ⟨by first | trivial | omega, by push_cast; ring⟩
    rw [hmap]
    refine Prod.ext ?_ (by omega)
    show acc ++ [(s + 1, ((s + 1 : ℕ) : ℤ) - 1)] ++
        ((List.range k).map fun j => ((s + 1 + j + 1 : ℕ), ((s + 1 : ℕ) : ℤ) + j)) =
      acc ++ ((s + 1, ((s + 1 : ℕ) : ℤ) - 1) ::
        (List.range k).map fun j => ((s + 1 + j + 1 : ℕ), ((s + 1 : ℕ) : ℤ) + j))
    rw [List.append_assoc, List.singleton_append]

/-- Closed form of the append trace of `run_agent` when no warm-up step
reports a terminal condition: the warm-up loop appends nodes `1 .. skip`
each below its predecessor, and the post-warm-up append then reuses id
`skip` with parent `skip - 1`. -/
theorem run_agent_appends_closed (endAt : ℕ → Bool) (skip : ℕ)
    (h : ∀ i, endAt i = false) :
    run_agent_appends endAt skip =
      ((List.range skip).map fun j => ((j + 1 : ℕ), (j : ℤ))) ++ [(skip, (skip : ℤ) - 1)] := by
  show (skipFramesAux endAt skip 0 []).1 ++
      [((skipFramesAux endAt skip 0 []).2, ((skipFramesAux endAt skip 0 []).2 : ℤ) - 1)] = _
  rw [skipFramesAux_all_false endAt h skip 0 []]
  simp only [List.nil_append, Nat.zero_add]
  congr 1
  apply List.map_congr_left
  intro j _
  simp only [Prod.mk.injEq]
  refine ⟨by first | trivial | omega, by push_cast; ring⟩

/-- C9: for every `skip_initial_frames >= 1` where no warm-up step reports
a terminal condition, `run_agent` calls `tree.append_leaf` with a
`(node_id, parent_id)` pair equal to one it has already appended: the last
append of the trace is `(i_step, i_step - 1)` with `i_step = skip`, and the
same pair already occurs among the earlier appends, so the appended node
ids are not pairwise distinct. -/
theorem run_agent_duplicate_node_id (endAt : ℕ → Bool) (skip : ℕ)
    (h1 : 1 ≤ skip) (h2 : ∀ i, endAt i = false) :
    (run_agent_appends endAt skip).getLast? = some ((skip, (skip : ℤ) - 1)) ∧
    ((skip, (skip : ℤ) - 1)) ∈ (run_agent_appends endAt skip).dropLast ∧
    ¬ ((run_agent_appends endAt skip).map Prod.fst).Nodup := by
  rw [run_agent_appends_closed endAt skip h2]
  have hmem : ((skip, (skip : ℤ) - 1)) ∈
      (List.range skip).map fun j => ((j + 1 : ℕ), (j : ℤ)) := by
    refine List.mem_map.mpr ⟨skip - 1, List.mem_range.mpr (by omega), ?_⟩
    simp only [Prod.mk.injEq]
    constructor
    · omega
    · omega
  refine ⟨List.getLast?_concat _, ?_, ?_⟩
  · rw [List.dropLast_concat]
    exact hmem
  · rw [List.map_append]
    intro hnd
    rw [List.nodup_append] at hnd
    obtain ⟨-, -, hdisj⟩ := hnd
    have hin1 : skip ∈ ((List.range skip).map fun j => ((j + 1 : ℕ), (j : ℤ))).map Prod.fst :=
      List.mem_map.mpr ⟨(skip, (skip : ℤ) - 1), hmem, rfl⟩
    have hin2 : skip ∈ ([((skip, (skip : ℤ) - 1))] : List (ℕ × ℤ)).map Prod.fst := by simp
    exact hdisj hin1 hin2

/-- Witness for C9 at `skip_initial_frames = 1` with an environment that
never reports a terminal warm-up condition. -/
theorem run_agent_duplicate_node_id_witness :
    (run_agent_appends (fun _ => false) 1).getLast? = some ((1, (1 : ℤ) - 1)) ∧
    ((1, (1 : ℤ) - 1)) ∈ (run_agent_appends (fun _ => false) 1).dropLast ∧
    ¬ ((run_agent_appends (fun _ => false) 1).map Prod.fst).Nodup :=
  run_agent_duplicate_node_id (fun _ => false) 1 le_rfl (fun _ => rfl)

/-- C10: `run_agent` has an undocumented precondition that `reward_limit`
is not `None`: with the constructor default `reward_limit = None` and the
warm-up finishing non-terminal, the episode-loop guard compares the agent
reward against `None` and fails (a `TypeError` in Python 3) before the
first planning cycle runs, even though `stop_condition` explicitly handles
`reward_limit = None` (its score component is simply `False` there). -/
theorem run_agent_reward_limit_none_fails (q : ℚ) (s : SwarmState)
    (hs : s.reward_limit = none) :
    run_agent_runs_first_cycle none q false =
      Except.error "TypeError: comparison of float and NoneType" ∧
    stopScore s = false := by
  refine ⟨rfl, ?_⟩
  simp [stopScore, hs]

/-- Witness for C10 at agent reward `0` and the concrete controller state
`c1State`, whose `reward_limit` is `None`. -/
theorem run_agent_reward_limit_none_fails_witness :
    run_agent_runs_first_cycle none 0 false =
      Except.error "TypeError: comparison of float and NoneType" ∧
    stopScore c1State = false :=
  run_agent_reward_limit_none_fails 0 c1State rfl
